import Mathlib

/-!
Verification of the Samsome whale-detector core
(`backend/whaleDetector.js` and the technical-indicator functions of the
front-end script) against its natural-language specification.

JavaScript numbers are modelled as `JVal`: either `NaN` (the result of
`parseFloat` on an unparseable string, propagated by arithmetic) or a
rational number.  The source never produces `Infinity` on the paths
modelled here, so it is not represented.  Raw trade fields `p`/`q` arrive
as strings and are parsed with `parseFloat`; we model the parse result
directly (`JVal.nan` for an unparseable field).  The wall clock
(`Date.now()`) is passed explicitly as a rational `now` parameter; the
two `Date.now()` reads inside one `processTrade` call are modelled as the
same instant.  String formatting (`toFixed`, `toLocaleTimeString`,
`toISOString`) is presentation-only and is modelled by the underlying
numeric value.
-/

namespace Samsome

/-- A JavaScript number as produced by `parseFloat` and propagated by the
detector's arithmetic: `NaN` or a rational value. -/
inductive JVal where
  | nan : JVal
  | num : ℚ → JVal
deriving DecidableEq, Repr

/-- JavaScript multiplication: `NaN` is absorbing. -/
def jmul : JVal → JVal → JVal
  | JVal.num a, JVal.num b => JVal.num (a * b)
  | _, _ => JVal.nan

/-- JavaScript addition: `NaN` is absorbing. -/
def jadd : JVal → JVal → JVal
  | JVal.num a, JVal.num b => JVal.num (a + b)
  | _, _ => JVal.nan

/-- JavaScript strict `>`: every comparison involving `NaN` is `false`. -/
def jgt : JVal → JVal → Bool
  | JVal.num a, JVal.num b => decide (b < a)
  | _, _ => false

/-- JavaScript `Math.max`: `NaN` if either argument is `NaN`. -/
def jmax : JVal → JVal → JVal
  | JVal.num a, JVal.num b => JVal.num (max a b)
  | _, _ => JVal.nan

/-- JavaScript division.  Division by zero (which the source never
performs: the only division is by `whaleCount ≥ 1`) is collapsed to
`NaN` since neither `Infinity` nor `NaN` is a rational. -/
def jdiv : JVal → JVal → JVal
  | JVal.num a, JVal.num b => if b = 0 then JVal.nan else JVal.num (a / b)
  | _, _ => JVal.nan

/-- A raw trade event from the feed: `p` and `q` are the `parseFloat`
results of the price and quantity strings, `T` the optional
millisecond timestamp. -/
structure RawTrade where
  p : JVal
  q : JVal
  T : Option ℚ
deriving DecidableEq, Repr

/-- The `tradeRecord` object built by `processTrade`. -/
structure TradeRecord where
  price : JVal
  quantity : JVal
  tradeValue : JVal
  timestamp : ℚ
  isWhale : Bool
deriving DecidableEq, Repr

/-- The `this.metrics` object. -/
structure Metrics where
  totalVolume24h : ℚ
  whaleCount : ℕ
  maxWhaleAmount : JVal
  lastWhaleTime : Option ℚ
  averageWhaleSize : JVal
deriving DecidableEq, Repr

/-- The mutable state of a `WhaleDetector` instance. -/
structure State where
  tradeHistory : List TradeRecord
  lastPrice : JVal
  aggregatedVolume : JVal
  lastVolumeResetTime : ℚ
  metrics : Metrics
deriving DecidableEq, Repr

/-- `this.WHALE_THRESHOLD`. -/
def WHALE_THRESHOLD : ℚ := 500000

/-- `this.MAX_HISTORY`. -/
def MAX_HISTORY : ℕ := 3600

/-- The metrics object as initialised by the constructor and by `reset`. -/
def initialMetrics : Metrics :=
  { totalVolume24h := 0
    whaleCount := 0
    maxWhaleAmount := JVal.num 0
    lastWhaleTime := none
    averageWhaleSize := JVal.num 0 }

/-- The constructor state (`now` is `Date.now()` at construction). -/
def initialState (now : ℚ) : State :=
  { tradeHistory := []
    lastPrice := JVal.num 0
    aggregatedVolume := JVal.num 0
    lastVolumeResetTime := now
    metrics := initialMetrics }

/-- The timestamp `trade.T || Date.now()`: the feed timestamp unless it
is absent or falsy (`0`). -/
def tsOrNow (T : Option ℚ) (now : ℚ) : ℚ :=
  match T with
  | none => now
  | some t => if t = 0 then now else t

/-- The `tradeRecord` constructed by `processTrade` from a raw trade. -/
def mkRecord (trade : RawTrade) (now : ℚ) : TradeRecord :=
  { price := trade.p
    quantity := trade.q
    tradeValue := jmul trade.p trade.q
    timestamp := tsOrNow trade.T now
    isWhale := jgt (jmul trade.p trade.q) (JVal.num WHALE_THRESHOLD) }

/-- The rolling-history update: `push` followed by `shift` when the
length exceeds `MAX_HISTORY`. -/
def pushBounded (h : List TradeRecord) (r : TradeRecord) : List TradeRecord :=
  let h := h ++ [r]
  if MAX_HISTORY < h.length then h.tail else h

/-- `onWhaleDetected`: increments the whale count, maxes the whale
amount, stamps the time, and sets `averageWhaleSize` to the source's
literal formula `maxWhaleAmount / whaleCount`. -/
def onWhaleDetected (m : Metrics) (tradeValue : JVal) (now : ℚ) : Metrics :=
  let count := m.whaleCount + 1
  let maxW := jmax m.maxWhaleAmount tradeValue
  { m with
    whaleCount := count
    maxWhaleAmount := maxW
    lastWhaleTime := some now
    averageWhaleSize := jdiv maxW (JVal.num count) }

/-- `processTrade`: parse, build the record, append with FIFO eviction,
update whale metrics, and reset the 60-second volume accumulator when
more than 60000 ms have passed since the last reset. -/
def processTrade (s : State) (trade : RawTrade) (now : ℚ) : State × TradeRecord :=
  let price := trade.p
  let quantity := trade.q
  let tradeValue := jmul price quantity
  let rec0 := mkRecord trade now
  let hist := pushBounded s.tradeHistory rec0
  let m :=
    if jgt tradeValue (JVal.num WHALE_THRESHOLD) then
      onWhaleDetected s.metrics tradeValue now
    else s.metrics
  let aggVol := jadd s.aggregatedVolume quantity
  let s1 : State :=
    if 60000 < now - s.lastVolumeResetTime then
      { tradeHistory := hist, lastPrice := price, aggregatedVolume := JVal.num 0
        lastVolumeResetTime := now, metrics := m }
    else
      { tradeHistory := hist, lastPrice := price, aggregatedVolume := aggVol
        lastVolumeResetTime := s.lastVolumeResetTime, metrics := m }
  (s1, rec0)

/-- The snapshot returned by `getMetrics` (the numeric value behind the
`hourlyVolume` `toFixed(4)` string). -/
structure MetricsSnapshot where
  metrics : Metrics
  currentPrice : JVal
  hourlyVolume : JVal
deriving DecidableEq, Repr

/-- `getMetrics`. -/
def getMetrics (s : State) : MetricsSnapshot :=
  { metrics := s.metrics
    currentPrice := s.lastPrice
    hourlyVolume := s.aggregatedVolume }

/-- `reset`: re-initialises metrics, empties the history and the volume
accumulator.  `lastPrice` and `lastVolumeResetTime` are untouched. -/
def resetDetector (s : State) : State :=
  { s with
    metrics := initialMetrics
    tradeHistory := []
    aggregatedVolume := JVal.num 0 }

/-- Processes a list of raw trades in order, each paired with the wall
clock at its arrival. -/
def runTrades (s : State) : List (RawTrade × ℚ) → State
  | [] => s
  | (t, now) :: rest => runTrades (processTrade s t now).1 rest

/-- One value of the `buckets` map in `getChartData`. -/
structure Bucket where
  price : JVal
  totalVolume : JVal
  count : ℕ
  timestamp : ℚ
deriving DecidableEq, Repr

/-- The 1-minute bucket key `Math.floor(timestamp / 60000) * 60000`. -/
def bucketTime (ts : ℚ) : ℚ :=
  (⌊ts / 60000⌋ : ℚ) * 60000

/-- The mutation `bucket.totalVolume += q; bucket.price = p; bucket.count++`
applied to the bucket keyed `bt`, leaving other buckets alone. -/
def updateBucket (t : TradeRecord) (bt : ℚ) (b : Bucket) : Bucket :=
  if b.timestamp = bt then
    { b with
      totalVolume := jadd b.totalVolume t.quantity
      price := t.price
      count := b.count + 1 }
  else b

/-- The body of the `forEach` for one in-window trade: create the bucket
on first sight, then accumulate volume, overwrite the price with this
trade's price, and bump the count.  The JS `Map` keeps keys in insertion
order, modelled by an association list. -/
def insertTrade (buckets : List Bucket) (t : TradeRecord) : List Bucket :=
  let bt := bucketTime t.timestamp
  let buckets :=
    if buckets.any (fun b => decide (b.timestamp = bt)) then buckets
    else buckets ++ [{ price := t.price, totalVolume := JVal.num 0, count := 0, timestamp := bt }]
  buckets.map (updateBucket t bt)

/-- One `forEach` iteration of `getChartData`, including the
`timestamp >= oneHourAgo` window filter. -/
def chartStep (now : ℚ) (buckets : List Bucket) (t : TradeRecord) : List Bucket :=
  if now - 3600000 ≤ t.timestamp then insertTrade buckets t else buckets

/-- The result of `getChartData`.  `labels` carries the bucket timestamp
that `toLocaleTimeString` would format; `prices` and `volumes` carry the
numeric values behind `toFixed`. -/
structure ChartSeries where
  labels : List ℚ
  prices : List JVal
  volumes : List JVal
  timestamps : List ℚ
deriving DecidableEq, Repr

/-- `getChartData`: window-filter the history into 1-minute buckets,
sort the buckets by timestamp (the comparison sort of `Array.sort` on
the distinct bucket keys), and emit the four parallel sequences. -/
def getChartData (s : State) (now : ℚ) : ChartSeries :=
  if s.tradeHistory.length = 0 then
    { labels := [], prices := [], volumes := [], timestamps := [] }
  else
    let buckets := s.tradeHistory.foldl (chartStep now) []
    let sorted := buckets.insertionSort (fun a b => a.timestamp ≤ b.timestamp)
    { labels := sorted.map (fun b => b.timestamp)
      prices := sorted.map (fun b => b.price)
      volumes := sorted.map (fun b => b.totalVolume)
      timestamps := sorted.map (fun b => b.timestamp) }

/-- JavaScript summation of a list of values, as accumulated by
`bucket.totalVolume += trade.quantity` starting from `0`. -/
def jsum (l : List JVal) : JVal := l.foldl jadd (JVal.num 0)

/-- Whether a trade is inside the one-hour window and falls into the
bucket keyed `bt`. -/
def windowPred (now bt : ℚ) (t : TradeRecord) : Bool :=
  decide (now - 3600000 ≤ t.timestamp) && decide (bucketTime t.timestamp = bt)

/-- The in-window trades of a record list that fall into the bucket
keyed `bt` at clock `now`, in list order. -/
def windowBucket (now bt : ℚ) (l : List TradeRecord) : List TradeRecord :=
  l.filter (windowPred now bt)

/-- The in-window trades of the history that fall into the bucket keyed
`bt` at clock `now`, in history order. -/
def bucketTrades (s : State) (now bt : ℚ) : List TradeRecord :=
  windowBucket now bt s.tradeHistory

/-- Correctness of a bucket accumulator with respect to the list of
trades folded so far: every bucket carries the summed quantity and the
price of the last-iterated trade of its window slice, and every
non-empty window slice is represented by a bucket. -/
def BucketsOk (now : ℚ) (l : List TradeRecord) (bs : List Bucket) : Prop :=
  (∀ b ∈ bs,
      b.totalVolume = jsum ((windowBucket now b.timestamp l).map (fun t => t.quantity))
      ∧ (windowBucket now b.timestamp l).getLast?.map (fun t => t.price) = some b.price)
  ∧ (∀ bt : ℚ, windowBucket now bt l ≠ [] → ∃ b ∈ bs, b.timestamp = bt)

/-- The front-end `calculateSMA`: mean of the last `period` closes,
absent when fewer than `period` closes are supplied. -/
def calculateSMA (prices : List ℚ) (period : ℕ) : Option ℚ :=
  if prices.length < period then none
  else some (((prices.drop (prices.length - period)).foldl (· + ·) 0) / period)

/-- The front-end `calculateEMA`: seeds with the mean of the LAST
`period` closes (`prices.slice(-period)`), then folds the recurrence
`ema = price * k + ema * (1 - k)` over `prices[period..]`. -/
def calculateEMA (prices : List ℚ) (period : ℕ) : Option ℚ :=
  if prices.length < period then none
  else
    let k : ℚ := 2 / (period + 1)
    let seed : ℚ := ((prices.drop (prices.length - period)).foldl (· + ·) 0) / period
    some ((prices.drop period).foldl (fun ema c => c * k + ema * (1 - k)) seed)

/-- Consecutive differences of a list (`prices[i] - prices[i-1]`). -/
def deltas : List ℚ → List ℚ
  | a :: b :: rest => (b - a) :: deltas (b :: rest)
  | _ => []

/-- The front-end `calculateRSI`: neutral `50` with fewer than
`period + 1` closes; otherwise accumulates gains and losses over the
trailing `period` consecutive deltas, sets `rs = 100` when the average
loss is zero, and returns `100 - 100 / (1 + rs)`. -/
def calculateRSI (prices : List ℚ) (period : ℕ) : ℚ :=
  if prices.length < period + 1 then 50
  else
    let ds := deltas (prices.drop (prices.length - (period + 1)))
    let gl := ds.foldl
      (fun gl d => if 0 < d then (gl.1 + d, gl.2) else (gl.1, gl.2 - d)) (0, 0)
    let avgGain := gl.1 / (period : ℚ)
    let avgLoss := gl.2 / (period : ℚ)
    let rs := if avgLoss = 0 then 100 else avgGain / avgLoss
    100 - 100 / (1 + rs)

/-- The trailing `period` deltas that `calculateRSI` inspects. -/
def trailingDeltas (prices : List ℚ) (period : ℕ) : List ℚ :=
  deltas (prices.drop (prices.length - (period + 1)))

/-- Modelled from the spec: average gain, the sum of the positive
trailing deltas divided by `period`. -/
def avgGainSpec (prices : List ℚ) (period : ℕ) : ℚ :=
  ((trailingDeltas prices period).map (fun d => if 0 < d then d else 0)).sum / (period : ℚ)

/-- Modelled from the spec: average loss, the sum of the negated
non-positive trailing deltas divided by `period`. -/
def avgLossSpec (prices : List ℚ) (period : ℕ) : ℚ :=
  ((trailingDeltas prices period).map (fun d => if 0 < d then 0 else -d)).sum / (period : ℚ)

/-- One step of the spec's EMA recurrence
`ema[i] = close[i] * k + ema[i-1] * (1 - k)`. -/
def emaStep (k ema c : ℚ) : ℚ := c * k + ema * (1 - k)

/-- Modelled from the spec: the EMA recurrence applied to each close in
order, starting from a seed. -/
def emaFrom (k : ℚ) : ℚ → List ℚ → ℚ
  | e, [] => e
  | e, c :: cs => emaFrom k (emaStep k e c) cs

/-- A raw trade with price `i`, quantity `1` and feed timestamp `1`. -/
def rawOf (i : ℕ) : RawTrade := ⟨JVal.num i, JVal.num 1, some 1⟩

/-- The record `processTrade` builds from `rawOf i` at clock `0`. -/
def recOf (i : ℕ) : TradeRecord := mkRecord (rawOf i) 0

/-- A feed of `MAX_HISTORY + 1` distinct trades, all at clock `0`. -/
def fifoSeq : List (RawTrade × ℚ) :=
  (List.range (MAX_HISTORY + 1)).map (fun i => (rawOf i, 0))

/-- A detector state whose history holds two trades of one bucket in
arrival order opposite to their timestamp order. -/
def chronoState : State :=
  (processTrade
    (processTrade (initialState 0) ⟨JVal.num 1, JVal.num 1, some 119000⟩ 0).1
    ⟨JVal.num 2, JVal.num 1, some 61000⟩ 0).1

/-- A detector state holding a single trade, used to instantiate the
chart-aggregation theorem. -/
def wState : State :=
  (processTrade (initialState 0) ⟨JVal.num 7, JVal.num 2, some 61000⟩ 0).1

/-! ### Basic lemmas about `processTrade` -/

theorem processTrade_snd (s : State) (t : RawTrade) (now : ℚ) :
    (processTrade s t now).2 = mkRecord t now := rfl

theorem processTrade_tradeHistory (s : State) (t : RawTrade) (now : ℚ) :
    (processTrade s t now).1.tradeHistory = pushBounded s.tradeHistory (mkRecord t now) := by
  simp only [processTrade]
  split <;> rfl

theorem processTrade_lastPrice (s : State) (t : RawTrade) (now : ℚ) :
    (processTrade s t now).1.lastPrice = t.p := by
  simp only [processTrade]
  split <;> rfl

theorem processTrade_metrics (s : State) (t : RawTrade) (now : ℚ) :
    (processTrade s t now).1.metrics
      = (if jgt (jmul t.p t.q) (JVal.num WHALE_THRESHOLD) then
          onWhaleDetected s.metrics (jmul t.p t.q) now
        else s.metrics) := by
  simp only [processTrade]
  split <;> rfl

/-- C1: every trade record built by `processTrade` has
`isWhale = (price * quantity > 500000)` under JavaScript comparison; for
numerically-parsed inputs this is exactly the strict comparison of the
rational notional value with the threshold, so a notional value equal to
the threshold (e.g. `1000 * 500`) is not classified as a whale. -/
theorem isWhale_iff_gt_threshold :
    (∀ (s : State) (t : RawTrade) (now : ℚ),
      (processTrade s t now).2.isWhale = jgt (jmul t.p t.q) (JVal.num WHALE_THRESHOLD))
    ∧ (∀ (s : State) (now : ℚ) (T : Option ℚ) (p q : ℚ),
      (processTrade s ⟨JVal.num p, JVal.num q, T⟩ now).2.isWhale = decide (500000 < p * q))
    ∧ (processTrade (initialState 0) ⟨JVal.num 1000, JVal.num 500, some 1⟩ 0).2.isWhale = false := by
  refine ⟨fun s t now => rfl, fun s now T p q => ?_, ?_⟩
  · simp [processTrade_snd, mkRecord, jmul, jgt, WHALE_THRESHOLD]
  · norm_num [processTrade_snd, mkRecord, jmul, jgt, WHALE_THRESHOLD]

/-- C8: processing `[{price 100, qty 1}, {price 600000, qty 1}]` from a
fresh instance leaves `whaleCount = 1` and `maxWhaleAmount = 600000`,
and after every whale detection `averageWhaleSize` is the source's
literal formula `maxWhaleAmount / whaleCount`. -/
theorem whale_metrics_formula :
    (∀ (m : Metrics) (v : JVal) (now : ℚ),
      (onWhaleDetected m v now).averageWhaleSize
        = jdiv (onWhaleDetected m v now).maxWhaleAmount
            (JVal.num ((onWhaleDetected m v now).whaleCount : ℚ)))
    ∧ ((processTrade (processTrade (initialState 0) ⟨JVal.num 100, JVal.num 1, some 1⟩ 0).1
          ⟨JVal.num 600000, JVal.num 1, some 2⟩ 0).1.metrics.whaleCount = 1
      ∧ (processTrade (processTrade (initialState 0) ⟨JVal.num 100, JVal.num 1, some 1⟩ 0).1
          ⟨JVal.num 600000, JVal.num 1, some 2⟩ 0).1.metrics.maxWhaleAmount
        = JVal.num 600000) := by
  refine ⟨fun m v now => rfl, ?_, ?_⟩ <;>
    norm_num [processTrade_metrics, processTrade, onWhaleDetected, initialState, initialMetrics,
      jgt, jmul, jmax, WHALE_THRESHOLD]

/-- C9: `reset` re-initialises the metrics and empties the history but
does not clear the last observed price, so a `getMetrics` call after a
reset reports the price of the last trade processed before the reset. -/
theorem reset_keeps_lastPrice (s : State) (t : RawTrade) (now : ℚ) :
    (getMetrics (resetDetector (processTrade s t now).1)).currentPrice = t.p
    ∧ (resetDetector (processTrade s t now).1).tradeHistory = []
    ∧ (resetDetector (processTrade s t now).1).metrics = initialMetrics := by
  refine ⟨?_, rfl, rfl⟩
  show (processTrade s t now).1.lastPrice = t.p
  exact processTrade_lastPrice s t now

/-- C10: the incoming quantity is added to the volume accumulator before
the 60-second check, so whenever more than 60000 ms have elapsed since
the last reset the accumulator is zero right after the call (the
triggering trade's quantity is not reflected in `hourlyVolume`); in the
non-elapsed case the accumulator has grown by the quantity. -/
theorem aggregatedVolume_reset (s : State) (t : RawTrade) (now : ℚ) :
    (60000 < now - s.lastVolumeResetTime →
      (processTrade s t now).1.aggregatedVolume = JVal.num 0
      ∧ (getMetrics (processTrade s t now).1).hourlyVolume = JVal.num 0)
    ∧ (¬ 60000 < now - s.lastVolumeResetTime →
      (processTrade s t now).1.aggregatedVolume = jadd s.aggregatedVolume t.q) := by
  constructor <;> intro h
  · simp only [processTrade, getMetrics]
    rw [if_pos h]
    exact ⟨rfl, rfl⟩
  · simp only [processTrade, getMetrics]
    rw [if_neg h]

theorem aggregatedVolume_reset_witness :
    ((processTrade (initialState 0) ⟨JVal.num 1, JVal.num 2, some 1⟩ 70000).1.aggregatedVolume
        = JVal.num 0
      ∧ (getMetrics (processTrade (initialState 0) ⟨JVal.num 1, JVal.num 2, some 1⟩
          70000).1).hourlyVolume = JVal.num 0)
    ∧ (processTrade (initialState 0) ⟨JVal.num 1, JVal.num 2, some 1⟩ 1000).1.aggregatedVolume
        = jadd (initialState 0).aggregatedVolume (JVal.num 2) :=
  ⟨(aggregatedVolume_reset (initialState 0) ⟨JVal.num 1, JVal.num 2, some 1⟩ 70000).1
      (by norm_num [initialState]),
    (aggregatedVolume_reset (initialState 0) ⟨JVal.num 1, JVal.num 2, some 1⟩ 1000).2
      (by norm_num [initialState])⟩

/-! ### Malformed input (C3) -/

theorem getLast_pushBounded (h : List TradeRecord) (r : TradeRecord) :
    (pushBounded h r).getLast? = some r := by
  unfold pushBounded
  dsimp only
  split
  · cases h with
    | nil => simp [MAX_HISTORY] at *
    | cons a h => simp [List.getLast?_concat]
  · simp [List.getLast?_concat]

/-- C3 counterexample: a raw trade whose price does not parse
(`parseFloat` gives `NaN`) is not rejected — `processTrade` silently
appends a fully-formed record with `NaN` price and `NaN` notional value
to the rolling history and returns it; no failure is reported. -/
theorem processTrade_nan_counterexample :
    ((processTrade (initialState 0) ⟨JVal.nan, JVal.num 1, some 5⟩ 0).1.tradeHistory
      = [{ price := JVal.nan, quantity := JVal.num 1, tradeValue := JVal.nan,
            timestamp := 5, isWhale := false }])
    ∧ ((processTrade (initialState 0) ⟨JVal.nan, JVal.num 1, some 5⟩ 0).2
      = { price := JVal.nan, quantity := JVal.num 1, tradeValue := JVal.nan,
          timestamp := 5, isWhale := false }) := by
  constructor <;>
    norm_num [processTrade_tradeHistory, processTrade_snd, pushBounded, mkRecord, tsOrNow,
      jmul, jgt, initialState, MAX_HISTORY]

/-- C3 amended: `processTrade` performs no input validation.  An
unparseable price yields a record whose price and notional value are
`NaN` and whose whale flag is `false`; the record is still appended as
the newest entry of the rolling history, and the call completes
normally (subsequent calls are unaffected). -/
theorem processTrade_no_validation (s : State) (q : JVal) (T : Option ℚ) (now : ℚ) :
    ((processTrade s ⟨JVal.nan, q, T⟩ now).1.tradeHistory.getLast?
        = some ((processTrade s ⟨JVal.nan, q, T⟩ now).2))
    ∧ (processTrade s ⟨JVal.nan, q, T⟩ now).2.price = JVal.nan
    ∧ (processTrade s ⟨JVal.nan, q, T⟩ now).2.tradeValue = JVal.nan
    ∧ (processTrade s ⟨JVal.nan, q, T⟩ now).2.isWhale = false := by
  refine ⟨?_, rfl, ?_, ?_⟩
  · rw [processTrade_tradeHistory, processTrade_snd]
    exact getLast_pushBounded _ _
  · simp [processTrade_snd, mkRecord, jmul]
  · simp [processTrade_snd, mkRecord, jmul, jgt]

/-! ### Moving averages (C5) -/

theorem emaFrom_eq_foldl (k : ℚ) :
    ∀ (l : List ℚ) (e : ℚ), emaFrom k e l = l.foldl (fun ema c => c * k + ema * (1 - k)) e
  | [], e => rfl
  | c :: cs, e => by
    rw [List.foldl_cons]
    exact emaFrom_eq_foldl k cs (emaStep k e c)

/-- C5 counterexample: `calculateEMA` over `[10, 20, 30]` with period 2
returns `85/3 ≈ 28.33`, not the claimed `25`: the seed is the mean of
the LAST two closes (`slice(-period)`), `(20+30)/2 = 25`, and the
recurrence then reprocesses `30`, giving `30·(2/3) + 25·(1/3) = 85/3`. -/
theorem calculateEMA_seed_counterexample :
    calculateEMA [10, 20, 30] 2 = some (85/3) ∧ (85 : ℚ)/3 ≠ 25 := by
  constructor
  · norm_num [calculateEMA]
  · norm_num

/-- C5 amended: with at least `period ≥ 1` closes, `calculateEMA` seeds
with the SMA of the last `period` closes of the whole list (the value
`calculateSMA` returns for the same list) and then applies the
recurrence `ema[i] = close[i]·k + ema[i-1]·(1-k)`, `k = 2/(period+1)`,
to the closes from index `period` onward; so EMA(period 2) over
`[10, 20, 30]` is `85/3`, and with fewer than `period` closes the
result is absent. -/
theorem calculateEMA_spec (period : ℕ) (pre post : List ℚ)
    (hpre : pre.length = period) (hp : 0 < period) :
    (∃ seed, calculateSMA (pre ++ post) period = some seed
      ∧ calculateEMA (pre ++ post) period
        = some (emaFrom (2 / ((period : ℚ) + 1)) seed post))
    ∧ (∀ prices : List ℚ, prices.length < period → calculateEMA prices period = none)
    ∧ calculateEMA [10, 20, 30] 2 = some (85/3) := by
  refine ⟨?_, fun prices h => by simp [calculateEMA, h], by norm_num [calculateEMA]⟩
  have hlen : ¬ (pre ++ post).length < period := by
    rw [List.length_append, hpre]
    omega
  refine ⟨((pre ++ post).drop ((pre ++ post).length - period)).foldl (· + ·) 0 / period,
    ?_, ?_⟩
  · rw [calculateSMA, if_neg hlen]
  · rw [calculateEMA, if_neg hlen, emaFrom_eq_foldl]
    have hdrop : (pre ++ post).drop period = post := by
      rw [← hpre, List.drop_left]
    rw [hdrop]

theorem calculateEMA_spec_witness :
    (∃ seed, calculateSMA ([10, 20] ++ [30]) 2 = some seed
      ∧ calculateEMA ([10, 20] ++ [30]) 2
        = some (emaFrom (2 / ((2 : ℚ) + 1)) seed [30]))
    ∧ (∀ prices : List ℚ, prices.length < 2 → calculateEMA prices 2 = none)
    ∧ calculateEMA [10, 20, 30] 2 = some (85/3) :=
  calculateEMA_spec 2 [10, 20] [30] rfl (by norm_num)

/-! ### Momentum oscillator (C6) -/

theorem foldl_gains_losses :
    ∀ (ds : List ℚ) (g l : ℚ),
      ds.foldl (fun gl d => if 0 < d then (gl.1 + d, gl.2) else (gl.1, gl.2 - d)) (g, l)
        = (g + (ds.map (fun d => if 0 < d then d else 0)).sum,
            l + (ds.map (fun d => if 0 < d then 0 else -d)).sum)
  | [], g, l => by simp
  | d :: rest, g, l => by
    rw [List.foldl_cons, List.map_cons, List.map_cons, List.sum_cons, List.sum_cons]
    by_cases hd : 0 < d
    · rw [if_pos hd, if_pos hd, if_pos hd, foldl_gains_losses rest, Prod.mk.injEq]
      constructor <;> ring
    · rw [if_neg hd, if_neg hd, if_neg hd, foldl_gains_losses rest, Prod.mk.injEq]
      constructor <;> ring

theorem gains_sum_nonneg (ds : List ℚ) :
    0 ≤ (ds.map (fun d => if 0 < d then d else 0)).sum := by
  apply List.sum_nonneg
  intro x hx
  obtain ⟨d, _, rfl⟩ := List.mem_map.mp hx
  by_cases hd : 0 < d <;> simp [hd]
  exact le_of_lt hd

theorem losses_sum_nonneg (ds : List ℚ) :
    0 ≤ (ds.map (fun d => if 0 < d then 0 else -d)).sum := by
  apply List.sum_nonneg
  intro x hx
  obtain ⟨d, _, rfl⟩ := List.mem_map.mp hx
  by_cases hd : 0 < d <;> simp [hd]
  linarith [not_lt.mp hd]

/-- C6 counterexample: with closes `[1, 2, 3]` and period 2 every
trailing delta is positive, the average loss is zero, and the code sets
`rs = 100`, so `calculateRSI` returns `100 - 100/101 = 10000/101 ≈
99.0099` — not exactly `100`. -/
theorem calculateRSI_saturation_counterexample :
    calculateRSI [1, 2, 3] 2 = 10000/101 ∧ (10000 : ℚ)/101 ≠ 100 := by
  constructor <;> norm_num [calculateRSI, deltas]

/-- C6 amended: for `period ≥ 1`, `calculateRSI` returns the neutral 50
when fewer than `period + 1` closes are supplied; with enough closes it
returns `100 - 100/101 = 10000/101` (not 100) whenever the average loss
over the trailing `period` deltas is zero — the code substitutes
`rs = 100` instead of dividing — and `100 - 100/(1 + avgGain/avgLoss)`
otherwise; the result always lies in `[0, 100)` (a fortiori `[0, 100]`)
and the computation is total. -/
theorem calculateRSI_spec (prices : List ℚ) (period : ℕ) (hp : 0 < period) :
    (prices.length < period + 1 → calculateRSI prices period = 50)
    ∧ (period + 1 ≤ prices.length →
        (avgLossSpec prices period = 0 → calculateRSI prices period = 10000/101)
        ∧ (avgLossSpec prices period ≠ 0 →
            calculateRSI prices period
              = 100 - 100 / (1 + avgGainSpec prices period / avgLossSpec prices period)))
    ∧ 0 ≤ calculateRSI prices period ∧ calculateRSI prices period < 100 := by
  have hper : (0 : ℚ) < (period : ℚ) := by exact_mod_cast hp
  by_cases hlen : prices.length < period + 1
  · refine ⟨fun _ => ?_, fun h => absurd h (by omega), ?_, ?_⟩ <;>
      rw [calculateRSI, if_pos hlen] <;> norm_num
  · have hgain0 : 0 ≤ avgGainSpec prices period :=
      div_nonneg (gains_sum_nonneg _) (le_of_lt hper)
    have hloss0 : 0 ≤ avgLossSpec prices period :=
      div_nonneg (losses_sum_nonneg _) (le_of_lt hper)
    have hval : calculateRSI prices period
        = 100 - 100 / (1 + (if avgLossSpec prices period = 0 then 100
            else avgGainSpec prices period / avgLossSpec prices period)) := by
      rw [calculateRSI, if_neg hlen]
      simp only [foldl_gains_losses]
      norm_num [avgGainSpec, avgLossSpec, trailingDeltas]
    have hrs0 : 0 ≤ (if avgLossSpec prices period = 0 then (100 : ℚ)
        else avgGainSpec prices period / avgLossSpec prices period) := by
      split
      · norm_num
      · exact div_nonneg hgain0 hloss0
    refine ⟨fun h => absurd h (by omega), fun _ => ⟨fun h0 => ?_, fun h0 => ?_⟩, ?_, ?_⟩
    · rw [hval, if_pos h0]
      norm_num
    · rw [hval, if_neg h0]
    · rw [hval]
      have : 100 / (1 + (if avgLossSpec prices period = 0 then (100 : ℚ)
          else avgGainSpec prices period / avgLossSpec prices period)) ≤ 100 := by
        apply div_le_self (by norm_num)
        linarith
      linarith
    · rw [hval]
      have : 0 < 100 / (1 + (if avgLossSpec prices period = 0 then (100 : ℚ)
          else avgGainSpec prices period / avgLossSpec prices period)) := by
        apply div_pos (by norm_num)
        linarith
      linarith

theorem calculateRSI_spec_witness :
    calculateRSI [1, 2, 3] 2 = 10000/101
    ∧ calculateRSI [(7 : ℚ)] 2 = 50
    ∧ 0 ≤ calculateRSI [1, 2, 3] 2 :=
  ⟨((calculateRSI_spec [1, 2, 3] 2 (by norm_num)).2.1 (by norm_num)).1
      (by norm_num [avgLossSpec, trailingDeltas, deltas]),
    (calculateRSI_spec [(7 : ℚ)] 2 (by norm_num)).1 (by norm_num),
    (calculateRSI_spec [1, 2, 3] 2 (by norm_num)).2.2.1⟩

/-! ### Rolling history bound and FIFO eviction (C2) -/

theorem runTrades_tradeHistory :
    ∀ (l : List (RawTrade × ℚ)) (s : State),
      (runTrades s l).tradeHistory
        = l.foldl (fun h p => pushBounded h (mkRecord p.1 p.2)) s.tradeHistory
  | [], s => rfl
  | (t, now) :: rest, s => by
    rw [runTrades, List.foldl_cons, runTrades_tradeHistory rest, processTrade_tradeHistory]

theorem length_pushBounded_le (h : List TradeRecord) (r : TradeRecord)
    (hh : h.length ≤ MAX_HISTORY) : (pushBounded h r).length ≤ MAX_HISTORY := by
  unfold pushBounded
  dsimp only
  split
  · simp only [List.length_tail, List.length_append, List.length_cons, List.length_nil]
    omega
  · rename_i hlt
    simp only [List.length_append, List.length_cons, List.length_nil] at *
    omega

theorem foldl_pushBounded_length_le :
    ∀ (l : List (RawTrade × ℚ)) (h : List TradeRecord), h.length ≤ MAX_HISTORY →
      (l.foldl (fun h p => pushBounded h (mkRecord p.1 p.2)) h).length ≤ MAX_HISTORY
  | [], h, hh => hh
  | p :: rest, h, hh => by
    rw [List.foldl_cons]
    exact foldl_pushBounded_length_le rest _ (length_pushBounded_le _ _ hh)

theorem foldl_pushBounded_small :
    ∀ (recs : List TradeRecord) (h : List TradeRecord),
      h.length + recs.length ≤ MAX_HISTORY →
      recs.foldl pushBounded h = h ++ recs
  | [], h, _ => by simp
  | r :: rest, h, hsm => by
    rw [List.foldl_cons]
    have hone : pushBounded h r = h ++ [r] := by
      unfold pushBounded
      dsimp only
      rw [if_neg]
      simp only [List.length_append, List.length_cons, List.length_nil, not_lt]
      simp only [List.length_cons] at hsm
      omega
    rw [hone, foldl_pushBounded_small rest (h ++ [r]) (by simp at *; omega)]
    simp

theorem tail_append_singleton {α : Type} (l : List α) (x : α) (h : l ≠ []) :
    (l ++ [x]).tail = l.tail ++ [x] := by
  cases l with
  | nil => exact absurd rfl h
  | cons a as => simp

theorem map_recOf_range_ne_nil : (List.range MAX_HISTORY).map recOf ≠ [] := by
  intro hnil
  have hlen := congrArg List.length hnil
  simp only [List.length_map, List.length_range, List.length_nil] at hlen
  exact absurd hlen (by norm_num [MAX_HISTORY])

/-- C2: from a fresh instance the rolling history never exceeds
`MAX_HISTORY = 3600` entries after any sequence of `processTrade` calls,
and eviction is strict FIFO: after inserting `MAX_HISTORY + 1` distinct
trades the history is exactly the tail of the inserted records — the
first-inserted record is gone while the second-inserted one is still
present. -/
theorem tradeHistory_bounded_fifo :
    (∀ (now0 : ℚ) (l : List (RawTrade × ℚ)),
      (runTrades (initialState now0) l).tradeHistory.length ≤ MAX_HISTORY)
    ∧ (runTrades (initialState 0) fifoSeq).tradeHistory
        = ((List.range (MAX_HISTORY + 1)).map recOf).tail
    ∧ recOf 0 ∉ (runTrades (initialState 0) fifoSeq).tradeHistory
    ∧ recOf 1 ∈ (runTrades (initialState 0) fifoSeq).tradeHistory := by
  have hrun : ∀ (l : List (RawTrade × ℚ)) (now0 : ℚ),
      (runTrades (initialState now0) l).tradeHistory
        = l.foldl (fun h p => pushBounded h (mkRecord p.1 p.2)) [] := by
    intro l now0
    rw [runTrades_tradeHistory]
    rfl
  have hr1 : List.range (MAX_HISTORY + 1) = List.range MAX_HISTORY ++ [MAX_HISTORY] :=
    List.range_succ MAX_HISTORY
  have hsmall : List.foldl (fun h i => pushBounded h (recOf i)) [] (List.range MAX_HISTORY)
      = (List.range MAX_HISTORY).map recOf := by
    have h2 := foldl_pushBounded_small ((List.range MAX_HISTORY).map recOf) [] (by simp)
    rw [List.foldl_map] at h2
    simpa using h2
  have hfifo : (runTrades (initialState 0) fifoSeq).tradeHistory
      = ((List.range MAX_HISTORY).map recOf).tail ++ [recOf MAX_HISTORY] := by
    rw [hrun, fifoSeq, List.foldl_map]
    show List.foldl (fun h i => pushBounded h (recOf i)) [] (List.range (MAX_HISTORY + 1)) = _
    rw [hr1, List.foldl_append, hsmall, List.foldl_cons, List.foldl_nil]
    unfold pushBounded
    dsimp only
    rw [if_pos (by
      simp only [List.length_append, List.length_map, List.length_range, List.length_cons,
        List.length_nil]
      omega)]
    exact tail_append_singleton _ _ map_recOf_range_ne_nil
  have htail : ((List.range (MAX_HISTORY + 1)).map recOf).tail
      = ((List.range MAX_HISTORY).map recOf).tail ++ [recOf MAX_HISTORY] := by
    rw [hr1, List.map_append, List.map_singleton]
    exact tail_append_singleton _ _ map_recOf_range_ne_nil
  have hshape : ((List.range MAX_HISTORY).map recOf).tail
      = (List.range 3599).map (fun i => recOf (i + 1)) := by
    have h3600 : List.range MAX_HISTORY = List.range (3599 + 1) := by norm_num [MAX_HISTORY]
    rw [h3600, List.range_succ_eq_map, List.map_cons, List.tail_cons, List.map_map]
    rfl
  refine ⟨fun now0 l => ?_, ?_, ?_, ?_⟩
  · rw [hrun]
    exact foldl_pushBounded_length_le l [] (by simp)
  · rw [hfifo, htail]
  · rw [hfifo, hshape]
    intro hmem
    have hprice : ∀ r ∈ ((List.range 3599).map fun i => recOf (i + 1))
        ++ [recOf MAX_HISTORY], r.price ≠ JVal.num 0 := by
      intro r hr
      rcases List.mem_append.mp hr with hr | hr
      · obtain ⟨i, _, rfl⟩ := List.mem_map.mp hr
        simp only [recOf, mkRecord, rawOf, ne_eq, JVal.num.injEq]
        exact Nat.cast_ne_zero.mpr (by omega)
      · rw [List.mem_singleton.mp hr]
        simp only [recOf, mkRecord, rawOf, ne_eq, JVal.num.injEq]
        exact Nat.cast_ne_zero.mpr (by norm_num [MAX_HISTORY])
    exact hprice (recOf 0) hmem (by simp [recOf, mkRecord, rawOf])
  · rw [hfifo, hshape]
    apply List.mem_append.mpr
    left
    exact List.mem_map.mpr ⟨0, by simp, rfl⟩

/-! ### Chart data on empty or fully-windowed-out histories (C7) -/

theorem foldl_chartStep_out (now : ℚ) :
    ∀ (l : List TradeRecord) (acc : List Bucket),
      (∀ r ∈ l, r.timestamp < now - 3600000) → l.foldl (chartStep now) acc = acc
  | [], _, _ => rfl
  | r :: rest, acc, h => by
    have hs : chartStep now acc r = acc := by
      unfold chartStep
      exact if_neg (not_le.mpr (h r (List.mem_cons_self r rest)))
    rw [List.foldl_cons, hs]
    exact foldl_chartStep_out now rest acc fun x hx => h x (List.mem_cons_of_mem r hx)

/-- C7: `getChartData` on an empty rolling history, or on one all of
whose trades fall before the one-hour lookback window, returns four
empty sequences and never fails. -/
theorem getChartData_empty (s : State) (now : ℚ)
    (h : s.tradeHistory = [] ∨ ∀ r ∈ s.tradeHistory, r.timestamp < now - 3600000) :
    getChartData s now = { labels := [], prices := [], volumes := [], timestamps := [] } := by
  rcases h with h | h
  · rw [getChartData, if_pos (by rw [h]; rfl)]
  · rw [getChartData]
    split
    · rfl
    · rw [foldl_chartStep_out now s.tradeHistory [] h]
      rfl

theorem getChartData_empty_witness :
    getChartData (initialState 0) 0
      = { labels := [], prices := [], volumes := [], timestamps := [] } :=
  getChartData_empty (initialState 0) 0 (Or.inl rfl)

/-! ### Chart bucket aggregation (C4) -/

theorem jsum_append (xs : List JVal) (y : JVal) : jsum (xs ++ [y]) = jadd (jsum xs) y := by
  unfold jsum
  rw [List.foldl_append, List.foldl_cons, List.foldl_nil]

theorem windowBucket_append (now bt : ℚ) (l : List TradeRecord) (t : TradeRecord) :
    windowBucket now bt (l ++ [t])
      = windowBucket now bt l ++ (if windowPred now bt t then [t] else []) := by
  unfold windowBucket
  rw [List.filter_append]
  cases hp : windowPred now bt t <;> simp [List.filter, hp]

theorem updateBucket_timestamp (t : TradeRecord) (bt : ℚ) (b : Bucket) :
    (updateBucket t bt b).timestamp = b.timestamp := by
  unfold updateBucket
  split <;> rfl

theorem windowPred_false_of_out (now bt : ℚ) (t : TradeRecord)
    (hw : ¬ now - 3600000 ≤ t.timestamp) : windowPred now bt t = false := by
  unfold windowPred
  rw [decide_eq_false hw, Bool.false_and]

theorem windowPred_false_of_ne (now bt : ℚ) (t : TradeRecord)
    (hw : now - 3600000 ≤ t.timestamp) (hne : bt ≠ bucketTime t.timestamp) :
    windowPred now bt t = false := by
  unfold windowPred
  rw [decide_eq_true hw, Bool.true_and]
  exact decide_eq_false fun hc => hne hc.symm

theorem windowPred_true (now : ℚ) (t : TradeRecord)
    (hw : now - 3600000 ≤ t.timestamp) :
    windowPred now (bucketTime t.timestamp) t = true := by
  unfold windowPred
  rw [decide_eq_true hw, Bool.true_and]
  exact decide_eq_true rfl

theorem bucketsOk_step (now : ℚ) (l : List TradeRecord) (bs : List Bucket) (t : TradeRecord)
    (hok : BucketsOk now l bs) : BucketsOk now (l ++ [t]) (chartStep now bs t) := by
  obtain ⟨h1, h2⟩ := hok
  by_cases hw : now - 3600000 ≤ t.timestamp
  · have hcs : chartStep now bs t = insertTrade bs t := by
      unfold chartStep
      exact if_pos hw
    have hsame : windowBucket now (bucketTime t.timestamp) (l ++ [t])
        = windowBucket now (bucketTime t.timestamp) l ++ [t] := by
      rw [windowBucket_append, if_pos (windowPred_true now t hw)]
    have hother : ∀ bt, bt ≠ bucketTime t.timestamp →
        windowBucket now bt (l ++ [t]) = windowBucket now bt l := by
      intro bt hne
      rw [windowBucket_append, if_neg, List.append_nil]
      rw [windowPred_false_of_ne now bt t hw hne]
      exact Bool.false_ne_true
    rw [hcs]
    by_cases hany : bs.any (fun b => decide (b.timestamp = bucketTime t.timestamp)) = true
    · have hins : insertTrade bs t = bs.map (updateBucket t (bucketTime t.timestamp)) := by
        simp only [insertTrade]
        rw [if_pos hany]
      rw [hins]
      constructor
      · intro b' hb'
        obtain ⟨b, hb, rfl⟩ := List.mem_map.mp hb'
        obtain ⟨hvol, hpr⟩ := h1 b hb
        by_cases hts : b.timestamp = bucketTime t.timestamp
        · have hupd : updateBucket t (bucketTime t.timestamp) b
              = { b with
                  totalVolume := jadd b.totalVolume t.quantity
                  price := t.price
                  count := b.count + 1 } := by
            unfold updateBucket
            exact if_pos hts
          rw [hupd]
          constructor
          · show jadd b.totalVolume t.quantity = _
            rw [hts, hsame, List.map_append, List.map_singleton, jsum_append, hvol, hts]
          · show (windowBucket now b.timestamp (l ++ [t])).getLast?.map _ = some t.price
            rw [hts, hsame]
            simp [List.getLast?_concat]
        · have hupd : updateBucket t (bucketTime t.timestamp) b = b := by
            unfold updateBucket
            exact if_neg hts
          rw [hupd, hother b.timestamp hts]
          exact ⟨hvol, hpr⟩
      · intro bt hbt
        by_cases hts : bt = bucketTime t.timestamp
        · obtain ⟨b, hb, hbts⟩ := List.any_eq_true.mp hany
          refine ⟨updateBucket t (bucketTime t.timestamp) b, List.mem_map_of_mem _ hb, ?_⟩
          rw [updateBucket_timestamp, of_decide_eq_true hbts, hts]
        · rw [hother bt hts] at hbt
          obtain ⟨b, hb, hbts⟩ := h2 bt hbt
          exact ⟨updateBucket t (bucketTime t.timestamp) b, List.mem_map_of_mem _ hb,
            by rw [updateBucket_timestamp, hbts]⟩
    · have hnotin : ∀ b ∈ bs, b.timestamp ≠ bucketTime t.timestamp := by
        intro b hb hc
        have hfalse := List.any_eq_false.mp (Bool.eq_false_iff.mpr hany) b hb
        simp [hc] at hfalse
      have hempty : windowBucket now (bucketTime t.timestamp) l = [] := by
        by_contra hne
        obtain ⟨b, hb, hbts⟩ := h2 _ hne
        exact hnotin b hb hbts
      have hins : insertTrade bs t
          = (bs ++ [({ price := t.price, totalVolume := JVal.num 0, count := 0,
                       timestamp := bucketTime t.timestamp } : Bucket)]).map
            (updateBucket t (bucketTime t.timestamp)) := by
        simp only [insertTrade]
        rw [if_neg hany]
      have hmapbs : bs.map (updateBucket t (bucketTime t.timestamp)) = bs := by
        rw [List.map_congr_left (g := id) fun b hb => by
          unfold updateBucket
          exact if_neg (hnotin b hb)]
        exact List.map_id bs
      have hnewupd : updateBucket t (bucketTime t.timestamp)
          { price := t.price, totalVolume := JVal.num 0, count := 0,
            timestamp := bucketTime t.timestamp }
          = { price := t.price, totalVolume := jadd (JVal.num 0) t.quantity, count := 1,
              timestamp := bucketTime t.timestamp } := by
        unfold updateBucket
        rw [if_pos rfl]
      have hins2 : insertTrade bs t
          = bs ++ [({ price := t.price, totalVolume := jadd (JVal.num 0) t.quantity, count := 1,
                      timestamp := bucketTime t.timestamp } : Bucket)] := by
        rw [hins, List.map_append, List.map_singleton, hmapbs, hnewupd]
      rw [hins2]
      constructor
      · intro b' hb'
        rcases List.mem_append.mp hb' with hb' | hb'
        · obtain ⟨hvol, hpr⟩ := h1 b' hb'
          rw [hother b'.timestamp (hnotin b' hb')]
          exact ⟨hvol, hpr⟩
        · rw [List.mem_singleton.mp hb']
          have hwt : windowBucket now (bucketTime t.timestamp) (l ++ [t]) = [t] := by
            rw [hsame, hempty]
            rfl
          constructor
          · show jadd (JVal.num 0) t.quantity = _
            rw [hwt]
            rfl
          · show (windowBucket now (bucketTime t.timestamp) (l ++ [t])).getLast?.map _
              = some t.price
            rw [hwt]
            rfl
      · intro bt hbt
        by_cases hts : bt = bucketTime t.timestamp
        · exact ⟨({ price := t.price, totalVolume := jadd (JVal.num 0) t.quantity, count := 1,
                    timestamp := bucketTime t.timestamp } : Bucket),
            List.mem_append.mpr (Or.inr (List.mem_singleton.mpr rfl)), hts.symm⟩
        · rw [hother bt hts] at hbt
          obtain ⟨b, hb, hbts⟩ := h2 bt hbt
          exact ⟨b, List.mem_append.mpr (Or.inl hb), hbts⟩
  · have hcs : chartStep now bs t = bs := by
      unfold chartStep
      exact if_neg hw
    have hwb : ∀ bt, windowBucket now bt (l ++ [t]) = windowBucket now bt l := by
      intro bt
      rw [windowBucket_append, if_neg, List.append_nil]
      rw [windowPred_false_of_out now bt t hw]
      exact Bool.false_ne_true
    rw [hcs]
    refine ⟨fun b hb => ?_, fun bt hbt => h2 bt (by rwa [hwb] at hbt)⟩
    rw [hwb]
    exact h1 b hb

theorem bucketsOk_nil (now : ℚ) : BucketsOk now [] [] := by
  constructor
  · intro b hb
    exact absurd hb (List.not_mem_nil b)
  · intro bt hbt
    exact absurd rfl hbt

theorem bucketsOk_foldl (now : ℚ) :
    ∀ (l2 l : List TradeRecord) (bs : List Bucket), BucketsOk now l bs →
      BucketsOk now (l ++ l2) (l2.foldl (chartStep now) bs)
  | [], l, bs, h => by simpa using h
  | t :: rest, l, bs, h => by
    rw [List.foldl_cons]
    have hrec := bucketsOk_foldl now rest (l ++ [t]) (chartStep now bs t)
      (bucketsOk_step now l bs t h)
    simpa [List.append_assoc] using hrec

theorem bucketsOk_history (now : ℚ) (l : List TradeRecord) :
    BucketsOk now l (l.foldl (chartStep now) []) := by
  simpa using bucketsOk_foldl now l [] [] (bucketsOk_nil now)

/-- C4 amended: for every detector state and clock, the bucket
timestamps emitted by `getChartData` are sorted ascending, and each
emitted `(timestamp, price, volume)` triple has its volume equal to the
JavaScript sum of the quantities of all in-window trades flooring into
that bucket and its price equal to the price of the trade of that
bucket that is last in ARRIVAL (history-iteration) order — not
necessarily the chronologically-last trade when the history is not
timestamp-monotone. -/
theorem getChartData_bucket_aggregation (s : State) (now : ℚ) :
    List.Sorted (fun a b => a ≤ b) ((getChartData s now).timestamps)
    ∧ (∀ (bt : ℚ) (p v : JVal),
        (bt, (p, v)) ∈ (getChartData s now).timestamps.zip
            ((getChartData s now).prices.zip ((getChartData s now).volumes)) →
        v = jsum ((bucketTrades s now bt).map (fun t => t.quantity))
        ∧ (bucketTrades s now bt).getLast?.map (fun t => t.price) = some p) := by
  haveI hTot : IsTotal Bucket (fun a b => a.timestamp ≤ b.timestamp) :=
    ⟨fun a b => le_total a.timestamp b.timestamp⟩
  haveI hTrans : IsTrans Bucket (fun a b => a.timestamp ≤ b.timestamp) :=
    ⟨fun a b c hab hbc => le_trans hab hbc⟩
  by_cases hz : s.tradeHistory.length = 0
  · unfold getChartData
    rw [if_pos hz]
    exact ⟨List.sorted_nil, fun bt p v hmem => absurd hmem (List.not_mem_nil _)⟩
  · unfold getChartData
    rw [if_neg hz]
    dsimp only
    constructor
    · have hsorted := List.sorted_insertionSort (fun a b : Bucket => a.timestamp ≤ b.timestamp)
        (s.tradeHistory.foldl (chartStep now) [])
      exact List.Pairwise.map (R := fun a b : Bucket => a.timestamp ≤ b.timestamp)
        (S := fun a b : ℚ => a ≤ b) (fun b => b.timestamp) (fun a b h => h) hsorted
    · intro bt p v hmem
      rw [List.zip_map', List.zip_map'] at hmem
      obtain ⟨b, hb, heq⟩ := List.mem_map.mp hmem
      injection heq with hts hrest
      injection hrest with hpr hvol
      have hbmem : b ∈ s.tradeHistory.foldl (chartStep now) [] :=
        (List.mem_insertionSort (fun a b : Bucket => a.timestamp ≤ b.timestamp)).mp hb
      obtain ⟨hv, hp⟩ := (bucketsOk_history now s.tradeHistory).1 b hbmem
      subst hts hpr hvol
      exact ⟨hv, hp⟩

theorem getChartData_bucket_aggregation_witness :
    (JVal.num 2) = jsum ((bucketTrades wState 100000 60000).map (fun t => t.quantity))
    ∧ (bucketTrades wState 100000 60000).getLast?.map (fun t => t.price)
        = some (JVal.num 7) :=
  (getChartData_bucket_aggregation wState 100000).2 60000 (JVal.num 7) (JVal.num 2)
    (by
      have hhist : wState.tradeHistory
          = [mkRecord ⟨JVal.num 7, JVal.num 2, some 61000⟩ 0] := by
        rw [wState, processTrade_tradeHistory]
        norm_num [pushBounded, initialState, MAX_HISTORY]
      norm_num [getChartData, hhist, chartStep, insertTrade, updateBucket, bucketTime,
        mkRecord, tsOrNow, jmul, jgt, jadd, WHALE_THRESHOLD, List.insertionSort,
        List.orderedInsert])

/-- C4 counterexample: in a reachable state whose single 1-minute bucket
holds two trades arriving in the order (timestamp 119000, price 1) then
(timestamp 61000, price 2), the emitted bucket price is 2 — the price of
the trade that arrived last — although the chronologically-last trade of
the bucket (the one with the greater timestamp, 119000) has price 1. -/
theorem getChartData_not_chronological :
    ((getChartData chronoState 200000).prices = [JVal.num 2])
    ∧ (chronoState.tradeHistory.map (fun t => (t.timestamp, t.price))
        = [((119000 : ℚ), JVal.num 1), ((61000 : ℚ), JVal.num 2)])
    ∧ bucketTime 119000 = bucketTime 61000
    ∧ ((61000 : ℚ) < 119000)
    ∧ JVal.num 2 ≠ JVal.num 1 := by
  have hhist : chronoState.tradeHistory
      = [mkRecord ⟨JVal.num 1, JVal.num 1, some 119000⟩ 0,
          mkRecord ⟨JVal.num 2, JVal.num 1, some 61000⟩ 0] := by
    rw [chronoState, processTrade_tradeHistory, processTrade_tradeHistory]
    norm_num [pushBounded, initialState, MAX_HISTORY]
  refine ⟨?_, ?_, ?_, by norm_num, by simp⟩
  · norm_num [getChartData, hhist, chartStep, insertTrade, updateBucket, bucketTime,
      mkRecord, tsOrNow, jmul, jgt, jadd, WHALE_THRESHOLD, List.insertionSort,
      List.orderedInsert]
  · rw [hhist]
    norm_num [mkRecord, tsOrNow]
  · norm_num [bucketTime]

end Samsome
